import Mathlib

/-! # Verification of the enclave price-oracle signing core

A shallow embedding of `src/enclave_rust/src/main.rs` (marlinprotocol/sui-oyster-demo).

The program fetches an asset price, quantizes it to a `u64` (6 decimal places),
wraps it in a Nautilus-style `IntentMessage` envelope, BCS-serializes the
envelope, hashes it with SHA-256, signs the digest with deterministic (RFC 6979)
ECDSA over secp256k1, and returns the hex-encoded 64-byte compact signature.

Bytes are modelled as `Nat` (values `< 256`), byte strings as `List Nat`,
machine integers as `Nat` with explicit bounds / `% 2^w` where relevant.
The external libraries the source calls (`bcs`, `sha2`, `secp256k1`, `hex`)
are embedded concretely, following their documented / specified behaviour,
since the correctness claims of the repository are about the exact bytes they
produce.
-/

namespace Oyster

/-! ## Byte-string primitives -/

/-- The `len` little-endian base-256 digits of `n` (fixed width, truncating
`n` modulo `256^len`, exactly as a `uN` field holds its value). -/
def natToLEBytes : Nat → Nat → List Nat
  | 0, _ => []
  | l + 1, n => n % 256 :: natToLEBytes l (n / 256)

/-- The `len` big-endian base-256 digits of `n` (fixed width). -/
def natToBEBytes (len n : Nat) : List Nat :=
  (natToLEBytes len n).reverse

/-- Interpret a byte string as a big-endian natural number. -/
def beBytesToNat (bs : List Nat) : Nat :=
  bs.foldl (fun acc b => acc * 256 + b) 0

/-! ## BCS serialization (the `bcs` crate, for the two structs the source derives
`Serialize` for).  BCS writes a `u8` as its single byte and a `u64` as its
eight bytes in little-endian, fixed width; a struct is the concatenation of
its fields in declaration order. -/

/-- BCS encoding of a `u64` field: 8 bytes, little-endian, fixed width. -/
def bcsU64 (n : Nat) : List Nat :=
  natToLEBytes 8 n

/-- Rust `struct PriceUpdatePayload { price: u64 }` (main.rs:18-21). -/
structure PriceUpdatePayload where
  price : Nat
deriving DecidableEq

/-- Rust `struct IntentMessage<T> { intent: u8, timestamp_ms: u64, data: T }`
(main.rs:24-29), instantiated at `T = PriceUpdatePayload` as the source does. -/
structure IntentMessage where
  intent : Nat
  timestamp_ms : Nat
  data : PriceUpdatePayload
deriving DecidableEq

/-- Well-formedness: the fields fit the Rust types `u8`/`u64`/`u64`. -/
def IntentMessage.WF (m : IntentMessage) : Prop :=
  m.intent < 2 ^ 8 ∧ m.timestamp_ms < 2 ^ 64 ∧ m.data.price < 2 ^ 64

instance (m : IntentMessage) : Decidable m.WF := by
  unfold IntentMessage.WF; infer_instance

/-- Rust `const INTENT_SCOPE: u8 = 0` (main.rs:57). -/
def INTENT_SCOPE : Nat := 0

/-- BCS encoding of `PriceUpdatePayload`: just its single `u64` field. -/
def bcsPriceUpdatePayload (p : PriceUpdatePayload) : List Nat :=
  bcsU64 p.price

/-- BCS encoding of `IntentMessage<PriceUpdatePayload>`: the `u8` tag byte,
the `u64` timestamp, then the recursively encoded payload
(`bcs::to_bytes(&intent_message)`, main.rs:94). -/
def bcsIntentMessage (m : IntentMessage) : List Nat :=
  m.intent :: (bcsU64 m.timestamp_ms ++ bcsPriceUpdatePayload m.data)

/-! ## Hex encoding (the `hex` crate: lowercase, two digits per byte). -/

/-- The lowercase hex digit for a nibble: digits are code points 48-57,
letters 97-102. -/
def hexDigit (n : Nat) : Char :=
  if n < 10 then Char.ofNat (48 + n) else Char.ofNat (87 + n)

/-- Hex encoding of a byte string as a list of characters, two lowercase
digits per byte, high nibble first. -/
def hexChars : List Nat → List Char
  | [] => []
  | b :: bs => hexDigit (b / 16) :: hexDigit (b % 16) :: hexChars bs

/-- Models `hex::encode`: the lowercase hex string of a byte string. -/
def hexEncode (bs : List Nat) : String :=
  String.mk (hexChars bs)

/-! ## SHA-256 (the function `Sha256::digest` of the `sha2` crate, main.rs:97-98), embedded
per FIPS 180-4: padding, 64-round compression, 32-byte big-endian output. -/

/-- Reduce to a 32-bit word. -/
def w32 (n : Nat) : Nat := n % 2 ^ 32

/-- Right rotation of a 32-bit word. -/
def rotr32 (x k : Nat) : Nat :=
  (x / 2 ^ k + x % 2 ^ k * 2 ^ (32 - k)) % 2 ^ 32

/-- The SHA-256 round constants. -/
def sha256K : List Nat :=
  [1116352408, 1899447441, 3049323471, 3921009573, 961987163,
   1508970993, 2453635748, 2870763221, 3624381080, 310598401,
   607225278, 1426881987, 1925078388, 2162078206, 2614888103,
   3248222580, 3835390401, 4022224774, 264347078, 604807628,
   770255983, 1249150122, 1555081692, 1996064986, 2554220882,
   2821834349, 2952996808, 3210313671, 3336571891, 3584528711,
   113926993, 338241895, 666307205, 773529912, 1294757372,
   1396182291, 1695183700, 1986661051, 2177026350, 2456956037,
   2730485921, 2820302411, 3259730800, 3345764771, 3516065817,
   3600352804, 4094571909, 275423344, 430227734, 506948616,
   659060556, 883997877, 958139571, 1322822218, 1537002063,
   1747873779, 1955562222, 2024104815, 2227730452, 2361852424,
   2428436474, 2756734187, 3204031479, 3329325298]

/-- The SHA-256 hash state: eight 32-bit words. -/
structure Sha256State where
  a : Nat
  b : Nat
  c : Nat
  d : Nat
  e : Nat
  f : Nat
  g : Nat
  h : Nat

/-- The SHA-256 initial hash value. -/
def sha256Init : Sha256State :=
  ⟨1779033703, 3144134277, 1013904242, 2773480762,
   1359893119, 2600822924, 528734635, 1541459225⟩

/-- Pad a message per FIPS 180-4: append `0x80`, zero bytes to 56 mod 64,
then the bit length as a 64-bit big-endian integer. -/
def sha256Pad (msg : List Nat) : List Nat :=
  msg ++ 128 :: List.replicate ((119 - msg.length % 64) % 64) 0
      ++ natToBEBytes 8 (8 * msg.length)

/-- Split a byte string into chunks of `sz` bytes (fuel-driven so the kernel
can evaluate it; fuel `bs.length` always suffices for nonempty steps). -/
def chunksAux (sz : Nat) : Nat → List Nat → List (List Nat)
  | 0, _ => []
  | _, [] => []
  | fuel + 1, bs => bs.take sz :: chunksAux sz fuel (bs.drop sz)

/-- Split a byte string into chunks of `sz` bytes. -/
def chunks (sz : Nat) (bs : List Nat) : List (List Nat) :=
  chunksAux sz bs.length bs

/-- The first 16 words of the message schedule: the bytes of the block read as
big-endian 32-bit words. -/
def blockWords (block : List Nat) : List Nat :=
  (chunks 4 block).map beBytesToNat

/-- Small sigma-0. -/
def ssig0 (x : Nat) : Nat := rotr32 x 7 ^^^ rotr32 x 18 ^^^ x / 2 ^ 3

/-- Small sigma-1. -/
def ssig1 (x : Nat) : Nat := rotr32 x 17 ^^^ rotr32 x 19 ^^^ x / 2 ^ 10

/-- Big sigma-0. -/
def bsig0 (x : Nat) : Nat := rotr32 x 2 ^^^ rotr32 x 13 ^^^ rotr32 x 22

/-- Big sigma-1. -/
def bsig1 (x : Nat) : Nat := rotr32 x 6 ^^^ rotr32 x 11 ^^^ rotr32 x 25

/-- Extend the 16-word schedule by `fuel` further words
(`w[i] = σ1 w[i-2] + w[i-7] + σ0 w[i-15] + w[i-16]`). -/
def sha256Extend : Nat → List Nat → List Nat
  | 0, ws => ws
  | fuel + 1, ws =>
    let i := ws.length
    let wi := w32 (ssig1 (ws.getD (i - 2) 0) + ws.getD (i - 7) 0 +
                   ssig0 (ws.getD (i - 15) 0) + ws.getD (i - 16) 0)
    sha256Extend fuel (ws ++ [wi])

/-- One SHA-256 round with round constant `ki` and schedule word `wi`. -/
def sha256Round (st : Sha256State) (ki wi : Nat) : Sha256State :=
  let ch := st.e &&& st.f ^^^ (2 ^ 32 - 1 - st.e % 2 ^ 32) &&& st.g
  let maj := st.a &&& st.b ^^^ st.a &&& st.c ^^^ st.b &&& st.c
  let t1 := w32 (st.h + bsig1 st.e + ch + ki + wi)
  let t2 := w32 (bsig0 st.a + maj)
  ⟨w32 (t1 + t2), st.a, st.b, st.c, w32 (st.d + t1), st.e, st.f, st.g⟩

/-- Compress one 64-byte block into the hash state. -/
def sha256Compress (st : Sha256State) (block : List Nat) : Sha256State :=
  let ws := sha256Extend 48 (blockWords block)
  let r := (sha256K.zip ws).foldl (fun s kw => sha256Round s kw.1 kw.2) st
  ⟨w32 (st.a + r.a), w32 (st.b + r.b), w32 (st.c + r.c), w32 (st.d + r.d),
   w32 (st.e + r.e), w32 (st.f + r.f), w32 (st.g + r.g), w32 (st.h + r.h)⟩

/-- Serialize the hash state: eight big-endian 32-bit words, 32 bytes. -/
def sha256StateBytes (st : Sha256State) : List Nat :=
  natToBEBytes 4 st.a ++ natToBEBytes 4 st.b ++ natToBEBytes 4 st.c ++
  natToBEBytes 4 st.d ++ natToBEBytes 4 st.e ++ natToBEBytes 4 st.f ++
  natToBEBytes 4 st.g ++ natToBEBytes 4 st.h

/-- Models `Sha256::digest`: the 32-byte SHA-256 digest of a byte string. -/
def sha256 (msg : List Nat) : List Nat :=
  sha256StateBytes ((chunks 64 (sha256Pad msg)).foldl sha256Compress sha256Init)

/-! ## HMAC-SHA256 (RFC 2104), used by the RFC 6979 deterministic nonce. -/

/-- HMAC-SHA256 of `msg` under `key`. -/
def hmacSha256 (key msg : List Nat) : List Nat :=
  let k0 := if 64 < key.length then sha256 key ++ List.replicate 32 0
            else key ++ List.replicate (64 - key.length) 0
  sha256 ((k0.map fun b => b ^^^ 92) ++ sha256 ((k0.map fun b => b ^^^ 54) ++ msg))

/-! ## secp256k1 (the `secp256k1` crate): curve `y² = x³ + 7` over `F_p`,
affine points with `none` the point at infinity, scalars mod the group
order `nOrder`.  Signing is deterministic ECDSA with the RFC 6979 nonce
(the default nonce function of libsecp256k1: HMAC-DRBG keyed on
`key32 ‖ msg32`, the digest used unreduced), low-S normalized. -/

/-- The secp256k1 base field prime `p = 2^256 - 2^32 - 977`. -/
def pField : Nat := 2 ^ 256 - 2 ^ 32 - 977

/-- The secp256k1 group order `n`. -/
def nOrder : Nat :=
  0xFFFFFFFFFFFFFFFFFFFFFFFFFFFFFFFEBAAEDCE6AF48A03BBFD25E8CD0364141

/-- x-coordinate of the secp256k1 generator point `G`. -/
def gX : Nat :=
  0x79BE667EF9DCBBAC55A06295CE870B07029BFCDB2DCE28D959F2815B16F81798

/-- y-coordinate of the secp256k1 generator point `G`. -/
def gY : Nat :=
  0x483ADA7726A3C4655DA4FBFC0E1108A8FD17B448A68554199C47D08FFB10D4B8

/-- Modular exponentiation by repeated squaring, fuel-driven (fuel bounds the
bit length of the exponent; 300 covers every exponent `< 2^300` used here). -/
def powModAux : Nat → Nat → Nat → Nat → Nat
  | 0, _, _, m => 1 % m
  | fuel + 1, b, e, m =>
    if e = 0 then 1 % m
    else
      let r := powModAux fuel (b * b % m) (e / 2) m
      if e % 2 = 1 then r * b % m else r

/-- Modular inverse by the little theorem of Fermat (`m` prime). -/
def invMod (a m : Nat) : Nat := powModAux 300 a (m - 2) m

/-- An affine secp256k1 point; `none` is the point at infinity. -/
abbrev ECPoint := Option (Nat × Nat)

/-- The secp256k1 group law on affine points (chord-and-tangent). -/
def pAdd : ECPoint → ECPoint → ECPoint
  | none, q => q
  | p, none => p
  | some (x1, y1), some (x2, y2) =>
    if x1 % pField = x2 % pField then
      if (y1 + y2) % pField = 0 then none
      else
        let l := 3 * x1 * x1 % pField * invMod (2 * y1 % pField) pField % pField
        let x3 := (l * l + 2 * pField - x1 % pField - x2 % pField) % pField
        some (x3, (l * ((x1 % pField + pField) - x3) % pField + pField - y1 % pField) % pField)
    else
      let l := (y2 % pField + pField - y1 % pField) % pField *
               invMod ((x2 % pField + pField - x1 % pField) % pField) pField % pField
      let x3 := (l * l + 2 * pField - x1 % pField - x2 % pField) % pField
      some (x3, (l * ((x1 % pField + pField) - x3) % pField + pField - y1 % pField) % pField)

/-- Scalar multiplication by double-and-add, fuel-driven on the bits of the scalar
(fuel 300 covers every scalar `< 2^300`). -/
def smulAux : Nat → Nat → ECPoint → ECPoint
  | 0, _, _ => none
  | fuel + 1, k, p =>
    if k = 0 then none
    else
      let h := smulAux fuel (k / 2) (pAdd p p)
      if k % 2 = 1 then pAdd h p else h

/-- Scalar multiplication `k • P` on secp256k1. -/
def smul (k : Nat) (p : ECPoint) : ECPoint := smulAux 300 k p

/-- The secp256k1 generator. -/
def gPoint : ECPoint := some (gX, gY)

/-- Models `SecretKey`: the 32-byte secp256k1 private scalar (held as its value;
the crate guarantees `1 ≤ d < nOrder` for keys it constructs). -/
structure SecretKey where
  d : Nat
deriving DecidableEq

/-- An ECDSA signature: the two scalars `r` and `s`. -/
structure Signature where
  r : Nat
  s : Nat
deriving DecidableEq

/-- Models `Signature::serialize_compact`: the two 32-byte big-endian integers
`r` then `s` concatenated, 64 bytes total (main.rs:106) — never DER. -/
def serializeCompact (sig : Signature) : List Nat :=
  natToBEBytes 32 sig.r ++ natToBEBytes 32 sig.s

/-- The ECDSA sign loop: draw HMAC-DRBG outputs `V := HMAC(K, V)` as nonce
candidates; on an out-of-range nonce or a zero `r`/`s`, step the DRBG
(`K := HMAC(K, V ‖ 0x00)`, `V := HMAC(K, V)`) and retry.  On success the
signature is `(r, s)` with `s` low-S normalized.  The fuel-exhaustion
fallback `⟨1, 1⟩` is never reached for real inputs (each retry has
probability ≈ 2^-128). -/
def signLoop : Nat → List Nat → List Nat → Nat → Nat → Signature
  | 0, _, _, _, _ => ⟨1, 1⟩
  | fuel + 1, kKey, v, d, z =>
    let v1 := hmacSha256 kKey v
    let k := beBytesToNat v1
    let kKey1 := hmacSha256 kKey (v1 ++ [0])
    let v2 := hmacSha256 kKey1 v1
    if 0 < k ∧ k < nOrder then
      match smul k gPoint with
      | none => signLoop fuel kKey1 v2 d z
      | some (rx, _) =>
        let r := rx % nOrder
        let s := invMod k nOrder * ((z + r * d) % nOrder) % nOrder
        if r = 0 ∨ s = 0 then signLoop fuel kKey1 v2 d z
        else ⟨r, if nOrder / 2 < s then nOrder - s else s⟩
    else signLoop fuel kKey1 v2 d z

/-- Models `sign_ecdsa` (RFC 6979 deterministic ECDSA as in libsecp256k1): seed the
HMAC-DRBG with `key32 ‖ digest32`, then run the sign loop. -/
def ecdsaSign (d : Nat) (digest : List Nat) : Signature :=
  let x := natToBEBytes 32 d
  let v0 := List.replicate 32 1
  let k0 := List.replicate 32 0
  let k1 := hmacSha256 k0 (v0 ++ [0] ++ x ++ digest)
  let v1 := hmacSha256 k1 v0
  let k2 := hmacSha256 k1 (v1 ++ [1] ++ x ++ digest)
  let v2 := hmacSha256 k2 v1
  signLoop 64 k2 v2 d (beBytesToNat digest)

/-! ## IEEE 754 binary64 (`f64`), exactly as Rust computes
`(price_usd * 1_000_000.0) as u64` (main.rs:121): decimal literals parse to
the nearest double, `*` is correctly rounded (round-half-even), and `as u64`
is the saturating truncation toward zero. -/

/-- An `f64` value: NaN, a signed infinity, or a signed finite value
`(-1)^sign * m * 2^e` (canonical values keep `m < 2^53` and `e ≥ -1074`). -/
inductive F64 where
  | nan : F64
  | inf : Bool → F64
  | finite : Bool → Nat → Int → F64
deriving DecidableEq

/-- Bit length of a natural number (fuel-driven; 5000 covers every number
`< 2^5000` appearing here). -/
def natBitsAux : Nat → Nat → Nat
  | 0, _ => 0
  | fuel + 1, n => if n = 0 then 0 else natBitsAux fuel (n / 2) + 1

/-- Bit length of a natural number. -/
def natBits (n : Nat) : Nat := natBitsAux 5000 n

/-- Computes `⌊num / den / 2^e⌋` for an `Int` exponent `e` (`Int.toNat` clamps the
unused side of the split to `2^0 = 1`). -/
def scaledFloor (num den : Nat) (e : Int) : Nat :=
  num * 2 ^ (-e).toNat / (den * 2 ^ e.toNat)

/-- Smallest exponent `≥ e` at which `⌊num / den / 2^·⌋ < 2^53`
(at most 4 steps are ever needed from the starting estimate). -/
def quantExpAux (num den : Nat) : Nat → Int → Int
  | 0, e => e
  | fuel + 1, e =>
    if scaledFloor num den e < 2 ^ 53 then e else quantExpAux num den fuel (e + 1)

/-- Round `num / den / 2^e` to the nearest integer, ties to even. -/
def roundHalfEven (num den : Nat) (e : Int) : Nat :=
  let a := num * 2 ^ (-e).toNat
  let b := den * 2 ^ e.toNat
  let m := a / b
  let r := a % b
  if b < 2 * r ∨ (2 * r = b ∧ m % 2 = 1) then m + 1 else m

/-- Round the positive rational `num / den` to the nearest binary64 value
(round-half-even, subnormal range clamped at quantum `2^-1074`, overflow to
infinity), carrying the given sign. -/
def f64RoundPos (sign : Bool) (num den : Nat) : F64 :=
  if num = 0 ∨ den = 0 then F64.finite sign 0 0
  else
    let e0 : Int := (natBits num : Int) - (natBits den : Int) - 54
    let e1 := max (quantExpAux num den 4 e0) (-1074)
    let m1 := roundHalfEven num den e1
    let m2 := if m1 = 2 ^ 53 then 2 ^ 52 else m1
    let e2 := if m1 = 2 ^ 53 then e1 + 1 else e1
    if 971 < e2 then F64.inf sign else F64.finite sign m2 e2

/-- The binary64 value nearest to the decimal literal `num / den` (Rust
float literals are parsed to the nearest double). -/
def f64Lit (num den : Nat) : F64 := f64RoundPos false num den

/-- Correctly rounded `f64` multiplication (IEEE 754 round-to-nearest-even;
`inf * 0 = NaN`, NaN propagates, signs multiply). -/
def f64Mul : F64 → F64 → F64
  | F64.nan, _ => F64.nan
  | _, F64.nan => F64.nan
  | F64.inf s1, F64.inf s2 => F64.inf (xor s1 s2)
  | F64.inf s1, F64.finite s2 m _ => if m = 0 then F64.nan else F64.inf (xor s1 s2)
  | F64.finite s1 m _, F64.inf s2 => if m = 0 then F64.nan else F64.inf (xor s1 s2)
  | F64.finite s1 m1 e1, F64.finite s2 m2 e2 =>
    let e := e1 + e2
    f64RoundPos (xor s1 s2) (m1 * m2 * 2 ^ e.toNat) (2 ^ (-e).toNat)

/-- Computes `⌊m * 2^e⌋` — the truncation toward zero of a nonnegative finite value. -/
def f64TruncVal (m : Nat) (e : Int) : Nat :=
  m * 2 ^ e.toNat / 2 ^ (-e).toNat

/-- Rust `as u64` on an `f64`: truncate toward zero and saturate to
`[0, 2^64 - 1]`; NaN casts to 0.  Every negative value (truncation ≤ 0)
saturates to 0; `+∞` and values `≥ 2^64` saturate to `u64::MAX`. -/
def f64ToU64 : F64 → Nat
  | F64.nan => 0
  | F64.inf s => if s then 0 else 2 ^ 64 - 1
  | F64.finite s m e => if s ∧ m ≠ 0 then 0 else min (f64TruncVal m e) (2 ^ 64 - 1)

/-! ## The signing pipeline and HTTP-handler cores (main.rs:80-165).
The external collaborators — the CoinGecko fetch, the wall clock, and the
key file read — enter as parameters (`price_usd`, `timestamp_ms`,
`key_bytes`); `entropy` models the ambient randomness a `Secp256k1::new()`
context could absorb (RFC 6979 signing output does not depend on it). -/

/-- The error `sign_price_data` can surface: `Message::from_digest_slice`
rejecting a digest whose length is not 32 bytes. -/
inductive SignError where
  | invalidDigestLength : Nat → SignError
deriving DecidableEq

/-- Models `Message::from_digest_slice` (main.rs:99): accepts exactly 32 bytes as a
message to sign, errors on any other length. -/
def messageFromDigestSlice (digest : List Nat) : Except SignError (List Nat) :=
  if digest.length = 32 then .ok digest
  else .error (.invalidDigestLength digest.length)

/-- A `Secp256k1` context (`Secp256k1::new()`, main.rs:102); `blind` models
the ambient randomization state a context may carry — it blinds internal
computation only and never changes a deterministic RFC 6979 signature. -/
structure Secp256k1 where
  blind : Nat

/-- Models `Secp256k1::new()`, absorbing whatever ambient entropy is available. -/
def Secp256k1.new (entropy : Nat) : Secp256k1 := ⟨entropy⟩

/-- Models `secp.sign_ecdsa(&message, signing_key)` (main.rs:103): deterministic
RFC 6979 ECDSA over the 32-byte digest; the blinding state of the context does
not enter the result. -/
def Secp256k1.sign_ecdsa (_ : Secp256k1) (digest : List Nat) (key : SecretKey) :
    Signature :=
  ecdsaSign key.d digest

/-- Models `sign_price_data` (main.rs:80-107): build the envelope with tag
`INTENT_SCOPE`, BCS-serialize, SHA-256, sign, hex-encode the compact
signature.  (`bcs::to_bytes` is infallible on these two structs, so its `?`
is total here.) -/
def sign_price_data (entropy : Nat) (signing_key : SecretKey)
    (price timestamp_ms : Nat) : Except SignError String :=
  let payload : PriceUpdatePayload := ⟨price⟩
  let intent_message : IntentMessage := ⟨INTENT_SCOPE, timestamp_ms, payload⟩
  let message_bytes := bcsIntentMessage intent_message
  let hash := sha256 message_bytes
  match messageFromDigestSlice hash with
  | .error e => .error e
  | .ok message =>
    let secp := Secp256k1.new entropy
    let signature := secp.sign_ecdsa message signing_key
    .ok (hexEncode (serializeCompact signature))

/-- Rust `struct SignedPriceResponse` (main.rs:32-37). -/
structure SignedPriceResponse where
  price : Nat
  timestamp_ms : Nat
  signature : String
deriving DecidableEq

/-- Rust `struct AppState` (main.rs:51-54); the HTTP client is an opaque handle
carrying no signing-relevant state. -/
structure AppState where
  signing_key : SecretKey
  http_client : Nat

/-- The quantization step `(price_usd * 1_000_000.0) as u64` (main.rs:121). -/
def quantizePrice (price_usd : F64) : Nat :=
  f64ToU64 (f64Mul price_usd (f64Lit 1000000 1))

/-- The core of `get_signed_price` (main.rs:109-140) after the external
fetch and clock read: quantize `price_usd * 1_000_000.0 as u64`, sign, and
return the response carrying the same price and timestamp. -/
def get_signed_price (entropy : Nat) (state : AppState) (price_usd : F64)
    (timestamp_ms : Nat) : Except SignError SignedPriceResponse :=
  let price := quantizePrice price_usd
  match sign_price_data entropy state.signing_key price timestamp_ms with
  | .error e => .error e
  | .ok signature => .ok ⟨price, timestamp_ms, signature⟩

/-- Models `PublicKey::from_secret_key(&secp, &key)` (main.rs:148): `d • G`. -/
def from_secret_key (_ : Secp256k1) (key : SecretKey) : ECPoint :=
  smul key.d gPoint

/-- Models `PublicKey::serialize()`: 33-byte SEC1 compressed form — parity byte
`0x02`/`0x03` then the 32-byte big-endian x-coordinate.  (The infinity case
never arises for a crate-constructed key; it is mapped to `[]`.) -/
def serializeCompressed : ECPoint → List Nat
  | none => []
  | some (x, y) => (if y % 2 = 0 then 2 else 3) :: natToBEBytes 32 x

/-- The core of `get_public_key` (main.rs:146-153): derive and hex-encode
the compressed public key of the signing key held in the state. -/
def get_public_key (entropy : Nat) (state : AppState) : String :=
  let secp := Secp256k1.new entropy
  let public_key := from_secret_key secp state.signing_key
  hexEncode (serializeCompressed public_key)

/-- The errors `load_signing_key_from_file` can surface, named as in the
error taxonomy of the spec (§9): wrong byte count, or bytes that are not a valid
secp256k1 scalar. -/
inductive KeyError where
  | invalidKeyLength : Nat → KeyError
  | invalidKeyValue : KeyError
deriving DecidableEq

/-- Models `SecretKey::from_slice` on a 32-byte slice (main.rs:163): the bytes,
read big-endian, must form a scalar in `[1, nOrder - 1]`. -/
def secretKeyFromBytes (bs : List Nat) : Except KeyError SecretKey :=
  let d := beBytesToNat bs
  if d = 0 ∨ nOrder ≤ d then .error .invalidKeyValue else .ok ⟨d⟩

/-- Models `load_signing_key_from_file` (main.rs:155-165) on the bytes read from
the key file: reject any byte count other than 32 first, then validate the
scalar value. -/
def load_signing_key_from_file (key_bytes : List Nat) : Except KeyError SecretKey :=
  if key_bytes.length ≠ 32 then .error (.invalidKeyLength key_bytes.length)
  else secretKeyFromBytes key_bytes

/-! ## Helper lemmas -/

theorem natToLEBytes_length (len : Nat) : ∀ n, (natToLEBytes len n).length = len := by
  induction len with
  | zero => intro n; rfl
  | succ l ih => intro n; simp [natToLEBytes, ih]

theorem natToBEBytes_length (len n : Nat) : (natToBEBytes len n).length = len := by
  simp [natToBEBytes, natToLEBytes_length]

theorem natToLEBytes_eq_ofFn (len : Nat) :
    ∀ n, natToLEBytes len n = List.ofFn fun i : Fin len => n / 256 ^ (i : Nat) % 256 := by
  induction len with
  | zero => intro n; rfl
  | succ l ih =>
    intro n
    rw [List.ofFn_succ]
    simp only [natToLEBytes, Fin.val_zero, pow_zero, Nat.div_one]
    congr 1
    rw [ih (n / 256)]
    congr 1
    funext i
    rw [Nat.div_div_eq_div_mul, Fin.val_succ, pow_succ]
    ring_nf

theorem natToLEBytes_bytes_lt (len : Nat) :
    ∀ n, ∀ b ∈ natToLEBytes len n, b < 256 := by
  induction len with
  | zero => intro n b hb; simp [natToLEBytes] at hb
  | succ l ih =>
    intro n b hb
    simp only [natToLEBytes, List.mem_cons] at hb
    rcases hb with h | h
    · omega
    · exact ih (n / 256) b h

theorem natToLEBytes_inj (len : Nat) :
    ∀ n m : Nat, n < 256 ^ len → m < 256 ^ len →
      natToLEBytes len n = natToLEBytes len m → n = m := by
  induction len with
  | zero => intro n m hn hm _; simp [pow_zero] at hn hm; omega
  | succ l ih =>
    intro n m hn hm h
    simp only [natToLEBytes, List.cons.injEq] at h
    have hd : n / 256 = m / 256 := by
      refine ih _ _ ?_ ?_ h.2 <;>
        · rw [Nat.div_lt_iff_lt_mul (by norm_num)]
          rw [pow_succ] at *
          omega
    omega

theorem foldl_natToBEBytes (len : Nat) :
    ∀ n acc : Nat,
      List.foldl (fun acc b => acc * 256 + b) acc (natToBEBytes len n) =
        acc * 256 ^ len + n % 256 ^ len := by
  induction len with
  | zero => intro n acc; simp [natToBEBytes, natToLEBytes, Nat.mod_one]
  | succ l ih =>
    intro n acc
    have hsplit : natToBEBytes (l + 1) n = natToBEBytes l (n / 256) ++ [n % 256] := by
      simp [natToBEBytes, natToLEBytes]
    rw [hsplit, List.foldl_append, ih]
    simp only [List.foldl_cons, List.foldl_nil]
    have hmod : n % 256 ^ (l + 1) = n % 256 + 256 * (n / 256 % 256 ^ l) := by
      rw [pow_succ, mul_comm (256 ^ l) 256, Nat.mod_mul]
    rw [hmod, pow_succ]
    ring

theorem beBytesToNat_natToBEBytes (len n : Nat) (h : n < 256 ^ len) :
    beBytesToNat (natToBEBytes len n) = n := by
  unfold beBytesToNat
  rw [foldl_natToBEBytes, Nat.zero_mul, Nat.zero_add, Nat.mod_eq_of_lt h]

theorem hexChars_length (bs : List Nat) : (hexChars bs).length = 2 * bs.length := by
  induction bs with
  | nil => rfl
  | cons b bs ih => simp [hexChars, ih]; ring

theorem hexEncode_length (bs : List Nat) : (hexEncode bs).length = 2 * bs.length := by
  show (hexChars bs).length = 2 * bs.length
  exact hexChars_length bs

theorem sha256StateBytes_length (st : Sha256State) : (sha256StateBytes st).length = 32 := by
  simp [sha256StateBytes, natToBEBytes_length]

theorem sha256_length (msg : List Nat) : (sha256 msg).length = 32 :=
  sha256StateBytes_length _

theorem nOrder_pos : 0 < nOrder := by decide

theorem nOrder_lt : nOrder < 256 ^ 32 := by decide

theorem signLoop_lt (fuel : Nat) :
    ∀ kKey v d z, (signLoop fuel kKey v d z).r < nOrder ∧
      (signLoop fuel kKey v d z).s < nOrder := by
  induction fuel with
  | zero =>
    intro kKey v d z
    rw [signLoop]
    exact ⟨by decide, by decide⟩
  | succ f ih =>
    intro kKey v d z
    rw [signLoop]
    dsimp only
    split
    · split
      · exact ih _ _ _ _
      · split
        · exact ih _ _ _ _
        · rename_i hne
          have hp := nOrder_pos
          refine ⟨Nat.mod_lt _ hp, ?_⟩
          dsimp only
          split <;> omega
    · exact ih _ _ _ _

theorem ecdsaSign_r_lt (d : Nat) (digest : List Nat) :
    (ecdsaSign d digest).r < nOrder ∧ (ecdsaSign d digest).s < nOrder :=
  signLoop_lt _ _ _ _ _

theorem messageFromDigestSlice_sha256 (bs : List Nat) :
    messageFromDigestSlice (sha256 bs) = .ok (sha256 bs) := by
  simp [messageFromDigestSlice, sha256_length]

theorem sign_price_data_eq (entropy : Nat) (key : SecretKey) (p t : Nat) :
    sign_price_data entropy key p t =
      .ok (hexEncode (serializeCompact (ecdsaSign key.d
        (sha256 (bcsIntentMessage ⟨INTENT_SCOPE, t, ⟨p⟩⟩))))) := by
  rw [sign_price_data, messageFromDigestSlice_sha256]
  rfl

theorem get_signed_price_eq (entropy : Nat) (st : AppState) (x : F64) (t : Nat) :
    get_signed_price entropy st x t =
      .ok ⟨quantizePrice x, t,
        hexEncode (serializeCompact (ecdsaSign st.signing_key.d
          (sha256 (bcsIntentMessage ⟨INTENT_SCOPE, t, ⟨quantizePrice x⟩⟩))))⟩ := by
  rw [get_signed_price]
  rw [sign_price_data_eq]

theorem f64ToU64_finite_neg (m : Nat) (e : Int) :
    f64ToU64 (F64.finite true m e) = 0 := by
  by_cases hm : m = 0
  · subst hm; simp [f64ToU64, f64TruncVal]
  · simp [f64ToU64, hm]

theorem f64RoundPos_shape (sign : Bool) (num den : Nat) :
    (∃ m e, f64RoundPos sign num den = F64.finite sign m e) ∨
      f64RoundPos sign num den = F64.inf sign := by
  rw [f64RoundPos]
  split
  · exact Or.inl ⟨_, _, rfl⟩
  · dsimp only
    split <;> (try split) <;>
      first
        | exact Or.inr rfl
        | exact Or.inl ⟨_, _, rfl⟩

theorem f64ToU64_f64RoundPos_neg (num den : Nat) :
    f64ToU64 (f64RoundPos true num den) = 0 := by
  rcases f64RoundPos_shape true num den with ⟨m, e, h⟩ | h <;> rw [h]
  · exact f64ToU64_finite_neg m e
  · rfl

theorem compact_take (r s : Nat) (hr : r < 256 ^ 32) :
    beBytesToNat ((natToBEBytes 32 r ++ natToBEBytes 32 s).take 32) = r := by
  rw [List.take_left' (natToBEBytes_length 32 r)]
  exact beBytesToNat_natToBEBytes 32 r hr

theorem compact_drop (r s : Nat) (hs : s < 256 ^ 32) :
    beBytesToNat ((natToBEBytes 32 r ++ natToBEBytes 32 s).drop 32) = s := by
  rw [List.drop_left' (natToBEBytes_length 32 r)]
  exact beBytesToNat_natToBEBytes 32 s hs

/-! ## The claims -/

/-- C1: for every well-formed envelope, the canonical encoding produced
before hashing is exactly 17 bytes laid out as the 1-byte intent tag, then
the timestamp as a fixed-width 8-byte little-endian unsigned integer, then
the price of the payload as a fixed-width 8-byte little-endian unsigned
integer (byte `i` of a `u64` field `n` is `n / 256^i % 256`, so the fields
are fixed width and little-endian, not variable-length). -/
theorem c1_envelope_encoding_layout (m : IntentMessage) (hWF : m.WF) :
    (bcsIntentMessage m).length = 17 ∧
    (∀ b ∈ bcsIntentMessage m, b < 256) ∧
    bcsIntentMessage m =
      m.intent :: ((List.ofFn fun i : Fin 8 => m.timestamp_ms / 256 ^ (i : Nat) % 256) ++
        List.ofFn fun i : Fin 8 => m.data.price / 256 ^ (i : Nat) % 256) := by
  obtain ⟨hi, ht, hp⟩ := hWF
  refine ⟨?_, ?_, ?_⟩
  · simp [bcsIntentMessage, bcsU64, bcsPriceUpdatePayload, natToLEBytes_length]
  · intro b hb
    simp only [bcsIntentMessage, List.mem_cons, List.mem_append] at hb
    rcases hb with h | h | h
    · subst h; norm_num at hi; omega
    · exact natToLEBytes_bytes_lt 8 _ b h
    · exact natToLEBytes_bytes_lt 8 _ b h
  · simp [bcsIntentMessage, bcsU64, bcsPriceUpdatePayload, natToLEBytes_eq_ofFn]

/-- Witness for C1 at the end-to-end test envelope of the spec
(tag 0, timestamp 1700000000000, price 3500000). -/
theorem c1_envelope_encoding_layout_witness :
    (⟨0, 1700000000000, ⟨3500000⟩⟩ : IntentMessage).WF ∧
      (bcsIntentMessage ⟨0, 1700000000000, ⟨3500000⟩⟩).length = 17 :=
  ⟨by decide, (c1_envelope_encoding_layout _ (by decide)).1⟩

/-- C2: the envelope encoding is deterministic and injective — for
well-formed envelopes, the encodings are identical byte sequences exactly
when the (intent tag, timestamp, price) triples are equal; in particular
encoding the same logical envelope twice yields the same bytes, and
changing any one field changes the encoding. -/
theorem c2_envelope_encoding_injective (a b : IntentMessage)
    (ha : a.WF) (hb : b.WF) :
    bcsIntentMessage a = bcsIntentMessage b ↔
      a.intent = b.intent ∧ a.timestamp_ms = b.timestamp_ms ∧
        a.data.price = b.data.price := by
  have h256 : (2 : Nat) ^ 64 = 256 ^ 8 := by norm_num
  constructor
  · intro h
    simp only [bcsIntentMessage, List.cons.injEq] at h
    obtain ⟨h1, h2⟩ := h
    have hlen : (bcsU64 a.timestamp_ms).length = (bcsU64 b.timestamp_ms).length := by
      simp [bcsU64, natToLEBytes_length]
    obtain ⟨h3, h4⟩ := List.append_inj h2 hlen
    refine ⟨h1, ?_, ?_⟩
    · exact natToLEBytes_inj 8 _ _ (lt_of_lt_of_eq ha.2.1 h256)
        (lt_of_lt_of_eq hb.2.1 h256) h3
    · exact natToLEBytes_inj 8 _ _ (lt_of_lt_of_eq ha.2.2 h256)
        (lt_of_lt_of_eq hb.2.2 h256) h4
  · rintro ⟨h1, h2, h3⟩
    simp [bcsIntentMessage, bcsU64, bcsPriceUpdatePayload, h1, h2, h3]

/-- Witness for C2 at two concrete envelopes that differ only in the price
field. -/
theorem c2_envelope_encoding_injective_witness :
    bcsIntentMessage ⟨0, 1700000000000, ⟨3500000⟩⟩ =
        bcsIntentMessage ⟨0, 1700000000000, ⟨3500001⟩⟩ ↔
      (0 : Nat) = 0 ∧ (1700000000000 : Nat) = 1700000000000 ∧
        (3500000 : Nat) = 3500001 :=
  c2_envelope_encoding_injective _ _ (by decide) (by decide)

/-- C4: the key loader rejects a file whose byte count differs from 32 with
`InvalidKeyLength` — deciding the length check before ever inspecting the
value — rejects 32 bytes that are not a valid secp256k1 scalar (zero or at
least the group order) with `InvalidKeyValue`, and on success returns the
constructed signer holding that scalar. -/
theorem c4_key_loader_validation (bs : List Nat) :
    (bs.length ≠ 32 →
      load_signing_key_from_file bs = .error (.invalidKeyLength bs.length)) ∧
    (bs.length = 32 → beBytesToNat bs = 0 ∨ nOrder ≤ beBytesToNat bs →
      load_signing_key_from_file bs = .error .invalidKeyValue) ∧
    (bs.length = 32 → 0 < beBytesToNat bs → beBytesToNat bs < nOrder →
      load_signing_key_from_file bs = .ok ⟨beBytesToNat bs⟩) := by
  refine ⟨?_, ?_, ?_⟩
  · intro h
    simp [load_signing_key_from_file, h]
  · intro h hv
    simp [load_signing_key_from_file, h, secretKeyFromBytes, hv]
  · intro h h0 hn
    have hne : ¬(beBytesToNat bs = 0 ∨ nOrder ≤ beBytesToNat bs) := by omega
    simp [load_signing_key_from_file, h, secretKeyFromBytes, hne]

/-- Witness for C4: a 31-byte and a 33-byte key file are rejected with
`InvalidKeyLength`, the 32-byte all-zero file with `InvalidKeyValue`, and a
32-byte big-endian encoding of 1 loads successfully. -/
theorem c4_key_loader_validation_witness :
    load_signing_key_from_file (List.replicate 31 0) =
        .error (.invalidKeyLength 31) ∧
    load_signing_key_from_file (List.replicate 33 0) =
        .error (.invalidKeyLength 33) ∧
    load_signing_key_from_file (List.replicate 32 0) = .error .invalidKeyValue ∧
    load_signing_key_from_file (List.replicate 31 0 ++ [1]) = .ok ⟨1⟩ :=
  ⟨(c4_key_loader_validation _).1 (by decide),
   (c4_key_loader_validation _).1 (by decide),
   (c4_key_loader_validation _).2.1 (by decide) (by decide),
   (c4_key_loader_validation _).2.2 (by decide) (by decide) (by decide)⟩

/-- C3: for every signing key, price and timestamp, the signature returned
by the signing pipeline serializes to the fixed compact layout — the
32-byte big-endian encoding of `r` followed by the 32-byte big-endian
encoding of `s`, 64 bytes total, each scalar recoverable from its fixed
position — hex-encoded as exactly 128 characters, never a variable-length
(DER) encoding. -/
theorem c3_signature_compact_layout (entropy : Nat) (key : SecretKey)
    (price timestamp_ms : Nat) :
    ∃ hx r s,
      sign_price_data entropy key price timestamp_ms = .ok hx ∧
      r < nOrder ∧ s < nOrder ∧
      hx = hexEncode (natToBEBytes 32 r ++ natToBEBytes 32 s) ∧
      (natToBEBytes 32 r ++ natToBEBytes 32 s).length = 64 ∧
      beBytesToNat ((natToBEBytes 32 r ++ natToBEBytes 32 s).take 32) = r ∧
      beBytesToNat ((natToBEBytes 32 r ++ natToBEBytes 32 s).drop 32) = s ∧
      hx.length = 128 := by
  obtain ⟨hr, hs⟩ := ecdsaSign_r_lt key.d
    (sha256 (bcsIntentMessage ⟨INTENT_SCOPE, timestamp_ms, ⟨price⟩⟩))
  refine ⟨_, _, _, sign_price_data_eq entropy key price timestamp_ms,
    hr, hs, rfl, ?_, ?_, ?_, ?_⟩
  · simp [natToBEBytes_length]
  · exact compact_take _ _ (lt_trans hr nOrder_lt)
  · exact compact_drop _ _ (lt_trans hs nOrder_lt)
  · rw [hexEncode_length]
    simp [serializeCompact, natToBEBytes_length]

set_option maxRecDepth 100000 in
/-- C5: price quantization multiplies the raw `f64` price by 10^6 and
truncates toward zero to a `u64`: the double nearest 1.234567891 quantizes
to 1234567, the double nearest 0.0000001 quantizes to 0, and 3.5 quantizes
to 3500000. -/
theorem c5_price_quantization_examples :
    quantizePrice (f64Lit 1234567891 1000000000) = 1234567 ∧
    quantizePrice (f64Lit 1 10000000) = 0 ∧
    quantizePrice (f64Lit 7 2) = 3500000 := by
  decide

/-- C6: for every request the pipeline builds the signed envelope with
intent tag exactly 0, the captured timestamp, and the quantized price, and
the returned response carries that same quantized price, the same
timestamp, and the hex signature over exactly that envelope. -/
theorem c6_response_fields_agree (entropy : Nat) (st : AppState)
    (price_usd : F64) (timestamp_ms : Nat) :
    get_signed_price entropy st price_usd timestamp_ms =
      .ok ⟨quantizePrice price_usd, timestamp_ms,
        hexEncode (serializeCompact (ecdsaSign st.signing_key.d
          (sha256 (bcsIntentMessage
            ⟨0, timestamp_ms, ⟨quantizePrice price_usd⟩⟩))))⟩ :=
  get_signed_price_eq entropy st price_usd timestamp_ms

/-- C7: `Message::from_digest_slice` fails (necessarily with
`InvalidDigestLength`, the only error) exactly when the digest is not
32 bytes; SHA-256 always produces 32 bytes, so the error branch is
unreachable and the signing pipeline returns `Ok` for every key, price and
timestamp. -/
theorem c7_signing_total (bs : List Nat) (entropy : Nat)
    (key : SecretKey) (price timestamp_ms : Nat) :
    ((∃ e, messageFromDigestSlice bs = .error e) ↔ bs.length ≠ 32) ∧
    (sha256 bs).length = 32 ∧
    ∃ hx, sign_price_data entropy key price timestamp_ms = .ok hx := by
  refine ⟨⟨?_, ?_⟩, sha256_length bs,
    ⟨_, sign_price_data_eq entropy key price timestamp_ms⟩⟩
  · rintro ⟨e, he⟩ hlen
    rw [messageFromDigestSlice, if_pos hlen] at he
    cases he
  · intro h
    exact ⟨.invalidDigestLength bs.length, by rw [messageFromDigestSlice, if_neg h]⟩

/-- C8: public-key derivation is deterministic and total — the handler
output is a function of the signing key alone (independent of the context
entropy and the HTTP-client state, so any two calls over the same key state
return the identical hex string), and whenever the derived point is affine
(as it is for every validly-constructed key) the output is the 66-character
hex of the 33-byte compressed public key. -/
theorem c8_public_key_idempotent (k : SecretKey) (e1 e2 c1 c2 : Nat) :
    get_public_key e1 ⟨k, c1⟩ = get_public_key e2 ⟨k, c2⟩ ∧
    ((from_secret_key (Secp256k1.new e1) k).isSome →
      (get_public_key e1 ⟨k, c1⟩).length = 66) := by
  constructor
  · rfl
  · intro h
    obtain ⟨pt, hpt⟩ := Option.isSome_iff_exists.mp h
    obtain ⟨x, y⟩ := pt
    rw [get_public_key]
    dsimp only
    rw [hpt, hexEncode_length]
    simp [serializeCompressed, natToBEBytes_length]

/-- Witness for C8 at the key with scalar 1, with different entropy and
client handles on the two sides. -/
theorem c8_public_key_idempotent_witness :
    (from_secret_key (Secp256k1.new 0) ⟨1⟩).isSome ∧
      get_public_key 0 ⟨⟨1⟩, 0⟩ = get_public_key 1 ⟨⟨1⟩, 1⟩ ∧
      (get_public_key 0 ⟨⟨1⟩, 0⟩).length = 66 :=
  ⟨by decide, (c8_public_key_idempotent ⟨1⟩ 0 1 0 1).1,
    (c8_public_key_idempotent ⟨1⟩ 0 1 0 1).2 (by decide)⟩

/-- C9: the float-to-u64 price conversion is total and saturating over
every `f64` — NaN and every negative value (finite or infinite) quantize to
0, positive infinity and every finite value at least `2^64` quantize to
`u64::MAX` — and the pipeline signs such inputs rather than refusing them:
for every `f64` input it returns `Ok` with the saturated quantized price. -/
theorem c9_cast_saturating (entropy t : Nat) (st : AppState) :
    f64ToU64 F64.nan = 0 ∧
    f64ToU64 (F64.inf false) = 2 ^ 64 - 1 ∧
    f64ToU64 (F64.inf true) = 0 ∧
    (∀ (m : Nat) (e : Int), f64ToU64 (F64.finite true m e) = 0) ∧
    (∀ (m : Nat) (e : Int), 2 ^ 64 ≤ f64TruncVal m e →
      f64ToU64 (F64.finite false m e) = 2 ^ 64 - 1) ∧
    (∀ num den : Nat, quantizePrice (f64RoundPos true num den) = 0) ∧
    (∀ x : F64, ∃ hx,
      get_signed_price entropy st x t = .ok ⟨quantizePrice x, t, hx⟩) := by
  refine ⟨rfl, rfl, rfl, f64ToU64_finite_neg, ?_, ?_, ?_⟩
  · intro m e hm
    rw [f64ToU64]
    simp only [Bool.false_eq_true, false_and, if_false]
    omega
  · intro num den
    have hmil : f64Lit 1000000 1 = F64.finite false 8589934592000000 (-33) := by
      decide
    rcases f64RoundPos_shape true num den with ⟨m, e, h⟩ | h <;>
      rw [quantizePrice, h, hmil]
    · exact f64ToU64_f64RoundPos_neg _ _
    · decide
  · intro x
    exact ⟨_, get_signed_price_eq entropy st x t⟩

/-- Witness for C9: concrete negative, oversized, and NaN inputs. -/
theorem c9_cast_saturating_witness :
    f64ToU64 (F64.finite true 1 0) = 0 ∧
    (2 ^ 64 ≤ f64TruncVal (2 ^ 64) 0 ∧
      f64ToU64 (F64.finite false (2 ^ 64) 0) = 2 ^ 64 - 1) ∧
    quantizePrice (f64RoundPos true 1 2) = 0 ∧
    ∃ hx, get_signed_price 0 ⟨⟨1⟩, 0⟩ F64.nan 5 =
      .ok ⟨quantizePrice F64.nan, 5, hx⟩ :=
  ⟨(c9_cast_saturating 0 5 ⟨⟨1⟩, 0⟩).2.2.2.1 1 0,
   ⟨by decide, (c9_cast_saturating 0 5 ⟨⟨1⟩, 0⟩).2.2.2.2.1 (2 ^ 64) 0 (by decide)⟩,
   (c9_cast_saturating 0 5 ⟨⟨1⟩, 0⟩).2.2.2.2.2.1 1 2,
   (c9_cast_saturating 0 5 ⟨⟨1⟩, 0⟩).2.2.2.2.2.2 F64.nan⟩

/-- C10: signing is fully deterministic — the RFC 6979 nonce is derived
from the key and digest alone, so two invocations of the pipeline with the
same key scalar, the same quantized price, and the same timestamp return
the identical hex signature even under different ambient context entropy;
no external randomness enters the signature. -/
theorem c10_signing_deterministic (e1 e2 : Nat) (k1 k2 : SecretKey)
    (price timestamp_ms : Nat) (hk : k1.d = k2.d) :
    sign_price_data e1 k1 price timestamp_ms =
      sign_price_data e2 k2 price timestamp_ms := by
  rw [sign_price_data_eq, sign_price_data_eq, hk]

/-- Witness for C10: two runs with different context entropy over the same
key scalar, price and timestamp. -/
theorem c10_signing_deterministic_witness :
    sign_price_data 0 ⟨1⟩ 3500000 1700000000000 =
      sign_price_data 1 ⟨1⟩ 3500000 1700000000000 :=
  c10_signing_deterministic 0 1 ⟨1⟩ ⟨1⟩ 3500000 1700000000000 rfl

end Oyster
